import Mathlib

/-!
Verification development for the WSN (wireless sensor network) data model
of `wsn.py`: a list of sensor nodes, scalar parameters, and a pairwise
power-coefficient matrix maintained under construction, `add_sensor` and
`remove_sensor`.

Modelling conventions:
* Python floats are abstracted to an arbitrary commutative ring `R`; the
  two numeric primitives the code uses, `np.sqrt` and `**` (float power),
  are passed as explicit function parameters `sqrt : R → R` and
  `pow : R → R → R`.  Concrete evaluations instantiate `R := ℤ` with
  functions that agree with the IEEE operations at every input actually
  evaluated (perfect-square distances, exponent 1), so those evaluations
  mirror the Python computation exactly.
* `numpy` 2-D arrays become `List (List R)`; `np.zeros((n, n))` is a list
  of `n` rows of `n` zeros, `np.delete(m, j, axis)` is `List.eraseIdx`
  (on rows, or mapped over rows), `np.column_stack` / `np.row_stack` are
  concatenations guarded by numpy's shape check.
* Python exceptions (`IndexError` from `del` / `np.delete`, `ValueError`
  from `np.column_stack`) are modelled by a `StepResult` carrying the
  object state at the moment the exception propagates, plus a `raised`
  flag — the Python methods mutate `self` in place, so a raised exception
  can leave a partially mutated object.
* Python / numpy indexing semantics: an integer index `idx` into a
  sequence of length `n` resolves to `idx + n` when negative, and is an
  `IndexError` unless the resolved index lies in `[0, n)`.
-/

namespace WSNV

variable {R : Type} [CommRing R]

/-- `Node` from wsn.py lines 7-19: 2D position and data rate. -/
structure Node (R : Type) where
  x : R
  y : R
  r : R
deriving DecidableEq

/-- `WSN` attribute state from wsn.py lines 41-53: node list, scalar
parameters, WCV / base coordinates, and the power matrix. -/
structure WSN (R : Type) where
  nodes : List (Node R)
  rho : R
  alpha : R
  beta_1 : R
  beta_2 : R
  charge_rate : R
  wcv_x : R
  wcv_y : R
  base_x : R
  base_y : R
  max_charge : R
  min_charge : R
  power_mat : List (List R)
deriving DecidableEq

/-- `np.zeros((n, n))`. -/
def zeros (n : Nat) : List (List R) := List.replicate n (List.replicate n 0)

/-- Read `m[i][j]` (0 outside the matrix; all reads in the development are
in range). -/
def entry (m : List (List R)) (i j : Nat) : R := (m.getD i []).getD j 0

/-- Write `m[i][j] = v` (no-op outside the matrix; all writes in the
development are in range). -/
def setEntry (m : List (List R)) (i j : Nat) (v : R) : List (List R) :=
  m.set i ((m.getD i []).set j v)

/-- The matrix is square of dimension `d` (numpy arrays are rectangular;
every matrix the class builds is square). -/
def SquareDim (m : List (List R)) (d : Nat) : Prop :=
  m.length = d ∧ ∀ row ∈ m, row.length = d

/-- `itertools.combinations(range(n), r=2)`: pairs `(i, j)` with
`i < j < n`, in lexicographic order. -/
def combinations2 (n : Nat) : List (Nat × Nat) :=
  (List.range n).flatMap fun i => ((List.range n).filter fun j => i < j).map fun j => (i, j)

/-- The loop body of `build_power_matrix` (wsn.py lines 64-65): write `c`
into both `m[p.1][p.2]` and `m[p.2][p.1]`. -/
def writeSym (m : List (List R)) (p : Nat × Nat) (c : R) : List (List R) :=
  setEntry (setEntry m p.1 p.2 c) p.2 p.1 c

/-- Pair `(i, j)` is written (in either orientation) by one of the loop
iterations in `l`. -/
def Covers (l : List (Nat × Nat)) (i j : Nat) : Prop :=
  ∃ p ∈ l, (p.1 = i ∧ p.2 = j) ∨ (p.1 = j ∧ p.2 = i)

variable (sqrt : R → R) (pow : R → R → R)

/-- The power-coefficient formula shared by wsn.py lines 62-63 and 77-78:
`beta_1 + beta_2 * sqrt((x1-x2)**2 + (y1-y2)**2) ** alpha`. -/
def coeffBetween (w : WSN R) (x1 y1 x2 y2 : R) : R :=
  w.beta_1 + w.beta_2 * pow (sqrt ((x1 - x2) ^ 2 + (y1 - y2) ^ 2)) w.alpha

/-- `x_data` of wsn.py line 59: base x followed by each node's x. -/
def pointXs (w : WSN R) : List R := w.base_x :: w.nodes.map Node.x

/-- `y_data` of wsn.py line 60. -/
def pointYs (w : WSN R) : List R := w.base_y :: w.nodes.map Node.y

/-- `WSN.build_power_matrix` (wsn.py lines 56-65): for every pair
`i < j` of point indices, write the coefficient symmetrically into
`power_mat[i][j]` and `power_mat[j][i]`, in place. -/
def build_power_matrix (w : WSN R) : WSN R :=
  let x_data := pointXs w
  let y_data := pointYs w
  let m :=
    (combinations2 x_data.length).foldl
      (fun m p =>
        writeSym m p (coeffBetween sqrt pow w (x_data.getD p.1 0) (y_data.getD p.1 0)
          (x_data.getD p.2 0) (y_data.getD p.2 0)))
      w.power_mat
  { w with power_mat := m }

/-- `WSN.__init__` (wsn.py lines 25-54): store everything, allocate the
`(n+1) × (n+1)` zero matrix, then run the full build. -/
def WSN.init (nodes : List (Node R)) (rho alpha beta_1 beta_2 charge_rate : R)
    (wcv_station : R × R) (base : R × R) (max_charge min_charge : R) : WSN R :=
  build_power_matrix sqrt pow
    { nodes := nodes, rho := rho, alpha := alpha, beta_1 := beta_1, beta_2 := beta_2,
      charge_rate := charge_rate, wcv_x := wcv_station.1, wcv_y := wcv_station.2,
      base_x := base.1, base_y := base.2, max_charge := max_charge, min_charge := min_charge,
      power_mat := zeros (nodes.length + 1) }

/-- Result of a mutating call: the object state when the call returns or
when the exception propagates, and whether an exception was raised. -/
structure StepResult (R : Type) where
  state : WSN R
  raised : Bool
deriving DecidableEq

/-- `WSN.add_sensor` (wsn.py lines 67-83).  `coefflist` has one entry per
pre-existing node.  `self.nodes.append(node)` happens first; then
`np.column_stack((self.power_mat, coefflist))` requires the matrix's row
count to equal `len(coefflist)` and raises `ValueError` otherwise, with
the node already appended and the matrix untouched.  On success the new
column is `coefflist` and the new row `coefflist + [0]` (the subsequent
`np.row_stack` shape check then holds automatically since the stacked
matrix has `len(coefflist) + 1` columns). -/
def add_sensor (w : WSN R) (node : Node R) : StepResult R :=
  let coefflist := w.nodes.map fun nd => coeffBetween sqrt pow w nd.x nd.y node.x node.y
  let nodes' := w.nodes ++ [node]
  if w.power_mat.length = coefflist.length then
    let stacked := List.zipWith (fun row c => row ++ [c]) w.power_mat coefflist
    let m := stacked ++ [coefflist ++ [0]]
    { state := { w with nodes := nodes', power_mat := m }, raised := false }
  else
    { state := { w with nodes := nodes' }, raised := true }

/-- Python / numpy index resolution against a sequence of length `n`:
negative indices count from the end; out of range is an error. -/
def resolveIdx (idx : Int) (n : Nat) : Option Nat :=
  let i := if idx < 0 then idx + n else idx
  if 0 ≤ i ∧ i < n then some i.toNat else none

/-- Column count of a numpy 2-D array in this model. -/
def numCols (m : List (List R)) : Nat := (m.headD []).length

/-- `WSN.remove_sensor` (wsn.py lines 85-93): `del self.nodes[idx]`, then
`np.delete` on axis 0 (resolved against the row count) and axis 1
(resolved against the column count), each raising `IndexError` when the
index does not resolve, leaving the mutations made so far in place. -/
def remove_sensor (w : WSN R) (idx : Int) : StepResult R :=
  match resolveIdx idx w.nodes.length with
  | none => { state := w, raised := true }
  | some i =>
    let nodes' := w.nodes.eraseIdx i
    match resolveIdx idx w.power_mat.length with
    | none => { state := { w with nodes := nodes' }, raised := true }
    | some j =>
      let rowsDeleted := w.power_mat.eraseIdx j
      match resolveIdx idx (numCols w.power_mat) with
      | none => { state := { w with nodes := nodes', power_mat := rowsDeleted }, raised := true }
      | some k =>
        let m := rowsDeleted.map (fun row => row.eraseIdx k)
        { state := { w with nodes := nodes', power_mat := m }, raised := false }

/-- States reachable by constructing a WSN and then applying any sequence
of `add_sensor` / `remove_sensor` calls (keeping the object state even
when the call raised, as the Python object persists across exceptions). -/
inductive Reachable : WSN R → Prop where
  | init : ∀ nodes rho alpha beta_1 beta_2 charge_rate wcv_station base max_charge min_charge,
      Reachable (WSN.init sqrt pow nodes rho alpha beta_1 beta_2 charge_rate
        wcv_station base max_charge min_charge)
  | add : ∀ w node, Reachable w → Reachable (add_sensor sqrt pow w node).state
  | remove : ∀ w idx, Reachable w → Reachable (remove_sensor w idx).state

/-- The x coordinate of matrix point `i`: base station at 0, `nodes[i-1]`
at `i ≥ 1`. -/
def pointX (w : WSN R) (i : Nat) : R := (pointXs w).getD i 0

/-- The y coordinate of matrix point `i`. -/
def pointY (w : WSN R) (i : Nat) : R := (pointYs w).getD i 0

/-- The spec's required value of `power_matrix[i][j]` for `i ≠ j`:
`beta_1 + beta_2 * euclidean_distance(point_i, point_j) ** alpha`. -/
def pcoeff (w : WSN R) (i j : Nat) : R :=
  coeffBetween sqrt pow w (pointX w i) (pointY w i) (pointX w j) (pointY w j)

/-- The two invariants of spec §8 checked over all reachable states:
symmetry and zero diagonal (with squareness, which they presuppose). -/
def GoodMatrix (m : List (List R)) : Prop :=
  SquareDim m m.length ∧ (∀ i j, entry m i j = entry m j i) ∧ ∀ i, entry m i i = 0

/-- Concrete square root used for evaluations: agrees with `np.sqrt` (and
with the exact real square root) on every argument that arises in the
concrete inputs below, which are chosen to have perfect-square squared
distances. -/
def sqrtW (q : ℤ) : ℤ :=
  if q = 25 then 5 else if q = 100 then 10 else 0

/-- Concrete float power used for evaluations with exponent `alpha = 1`:
`x ** 1.0 = x` exactly in IEEE arithmetic. -/
def powW (x : ℤ) (_a : ℤ) : ℤ := x

/-- A concrete one-node network: base at the origin, one sensor at
`(3, 4)` (distance 5), `beta_1 = 0`, `beta_2 = 1`, `alpha = 1`. -/
def wA : WSN ℤ := WSN.init sqrtW powW [⟨3, 4, 1⟩] 1 1 0 1 1 (0, 0) (0, 0) 10 1

/-- A concrete two-node network: base at the origin, sensors at `(3, 4)`
and `(6, 8)` (distances 5, 10 from the base and 5 from each other). -/
def wB : WSN ℤ := WSN.init sqrtW powW [⟨3, 4, 1⟩, ⟨6, 8, 1⟩] 1 1 0 1 1 (0, 0) (0, 0) 10 1

end WSNV

namespace WSNV

set_option linter.unusedSectionVars false

section Lemmas

variable {R : Type} [CommRing R]
variable (sqrt : R → R) (pow : R → R → R)

example : combinations2 3 = [(0, 1), (0, 2), (1, 2)] := by decide

example : wA.power_mat = [[0, 5], [5, 0]] := by decide

example : wB.power_mat = [[0, 5, 10], [5, 0, 5], [10, 5, 0]] := by decide

example : (remove_sensor wB 0).state.power_mat = [[0, 5], [5, 0]] := by decide

example : (add_sensor sqrtW powW wA ⟨6, 8, 1⟩).raised = true := by decide

theorem getD_mem_or_default (m : List (List R)) (i : Nat) :
    m.getD i [] ∈ m ∨ m.getD i [] = [] := by
  by_cases hi : i < m.length
  · left
    rw [List.getD_eq_getElem _ _ hi]
    exact List.getElem_mem _
  · right
    rw [List.getD_eq_getElem?_getD, List.getElem?_eq_none (by omega)]
    rfl

theorem getD_row_length {m : List (List R)} {d : Nat} (hm : SquareDim m d) {i : Nat}
    (hi : i < m.length) : (m.getD i []).length = d := by
  rw [List.getD_eq_getElem _ _ hi]
  exact hm.2 _ (List.getElem_mem _)

theorem squareDim_setEntry {m : List (List R)} {d : Nat} (hm : SquareDim m d)
    (i j : Nat) (v : R) : SquareDim (setEntry m i j v) d := by
  obtain ⟨hlen, hrow⟩ := hm
  by_cases hi : i < m.length
  · refine ⟨by rw [setEntry, List.length_set]; exact hlen, ?_⟩
    intro row hmem
    rcases List.mem_or_eq_of_mem_set hmem with h | h
    · exact hrow _ h
    · subst h
      rw [List.length_set, List.getD_eq_getElem _ _ hi]
      exact hrow _ (List.getElem_mem _)
  · rw [setEntry, List.set_eq_of_length_le (by omega)]
    exact ⟨hlen, hrow⟩

theorem getD_setEntry (m : List (List R)) (a b i : Nat) (v : R) :
    (setEntry m a b v).getD i [] =
      if i = a then (m.getD a []).set b v else m.getD i [] := by
  by_cases hia : i = a
  · subst hia
    rw [if_pos rfl]
    by_cases ha : i < m.length
    · rw [setEntry, List.getD_eq_getElem?_getD, List.getElem?_set_self ha, Option.getD_some]
    · rw [setEntry, List.set_eq_of_length_le (by omega)]
      have h1 : m.getD i [] = [] := by
        rw [List.getD_eq_getElem?_getD, List.getElem?_eq_none (by omega)]
        rfl
      rw [h1]
      rfl
  · rw [if_neg hia, setEntry, List.getD_eq_getElem?_getD,
      List.getElem?_set_ne (fun h => hia h.symm), ← List.getD_eq_getElem?_getD]

theorem getD_set_row (l : List R) (b j : Nat) (v : R) :
    (l.set b v).getD j 0 = if j = b ∧ b < l.length then v else l.getD j 0 := by
  by_cases h : j = b ∧ b < l.length
  · obtain ⟨rfl, hb⟩ := h
    rw [if_pos ⟨rfl, hb⟩, List.getD_eq_getElem?_getD, List.getElem?_set_self hb, Option.getD_some]
  · rw [if_neg h]
    by_cases hjb : j = b
    · subst hjb
      rw [List.set_eq_of_length_le (by omega)]
    · rw [List.getD_eq_getElem?_getD, List.getElem?_set_ne (fun hh => hjb hh.symm),
        ← List.getD_eq_getElem?_getD]

theorem entry_setEntry_self {m : List (List R)} {d : Nat} (hm : SquareDim m d)
    {i j : Nat} (hi : i < d) (hj : j < d) (v : R) :
    entry (setEntry m i j v) i j = v := by
  have hi' : i < m.length := by rw [hm.1]; exact hi
  have hrl : (m.getD i []).length = d := getD_row_length hm hi'
  rw [entry, getD_setEntry, if_pos rfl, getD_set_row, if_pos ⟨rfl, by omega⟩]

theorem entry_setEntry_of_ne (m : List (List R)) {a b i j : Nat}
    (h : ¬(i = a ∧ j = b)) (v : R) :
    entry (setEntry m a b v) i j = entry m i j := by
  rw [entry, getD_setEntry]
  by_cases hia : i = a
  · subst hia
    rw [if_pos rfl, getD_set_row, if_neg (fun hh => h ⟨rfl, hh.1⟩)]
    rfl
  · rw [if_neg hia]
    rfl

theorem squareDim_writeSym {m : List (List R)} {d : Nat} (hm : SquareDim m d)
    (p : Nat × Nat) (c : R) : SquareDim (writeSym m p c) d :=
  squareDim_setEntry (squareDim_setEntry hm _ _ _) _ _ _

theorem squareDim_foldl_writeSym (f : Nat × Nat → R) (l : List (Nat × Nat))
    {m : List (List R)} {d : Nat} (hm : SquareDim m d) :
    SquareDim (l.foldl (fun acc p => writeSym acc p (f p)) m) d := by
  induction l generalizing m with
  | nil => exact hm
  | cons p l ih => exact ih (squareDim_writeSym hm p (f p))

theorem entry_foldl_writeSym_of_not_covered (f : Nat × Nat → R) (l : List (Nat × Nat))
    (m : List (List R)) (i j : Nat) (h : ¬ Covers l i j) :
    entry (l.foldl (fun acc p => writeSym acc p (f p)) m) i j = entry m i j := by
  induction l generalizing m with
  | nil => rfl
  | cons p l ih =>
    have hp : ¬ Covers l i j := fun hc => by
      obtain ⟨q, hq, hq2⟩ := hc
      exact h ⟨q, List.mem_cons_of_mem _ hq, hq2⟩
    have h1 : ¬(i = p.1 ∧ j = p.2) := fun hh =>
      h ⟨p, List.mem_cons_self _ _, Or.inl ⟨hh.1.symm, hh.2.symm⟩⟩
    have h2 : ¬(i = p.2 ∧ j = p.1) := fun hh =>
      h ⟨p, List.mem_cons_self _ _, Or.inr ⟨hh.2.symm, hh.1.symm⟩⟩
    rw [List.foldl_cons, ih _ hp, writeSym, entry_setEntry_of_ne _ h2,
      entry_setEntry_of_ne _ h1]

theorem entry_foldl_writeSym_of_covered (f : Nat × Nat → R)
    (hf : ∀ a b, f (a, b) = f (b, a)) (l : List (Nat × Nat))
    {m : List (List R)} {d : Nat} (hm : SquareDim m d)
    (hl : ∀ p ∈ l, p.1 < d ∧ p.2 < d ∧ p.1 ≠ p.2)
    (i j : Nat) (hcov : Covers l i j) :
    entry (l.foldl (fun acc p => writeSym acc p (f p)) m) i j = f (i, j) := by
  induction l generalizing m with
  | nil =>
    obtain ⟨q, hq, _⟩ := hcov
    exact absurd hq (List.not_mem_nil q)
  | cons p l ih =>
    have hl' : ∀ q ∈ l, q.1 < d ∧ q.2 < d ∧ q.1 ≠ q.2 := fun q hq =>
      hl q (List.mem_cons_of_mem _ hq)
    by_cases hc : Covers l i j
    · exact ih (squareDim_writeSym hm p (f p)) hl' hc
    · obtain ⟨a, b⟩ := p
      obtain ⟨ha, hb, hab⟩ := hl (a, b) (List.mem_cons_self _ _)
      rw [List.foldl_cons, entry_foldl_writeSym_of_not_covered f l _ i j hc, writeSym]
      obtain ⟨q, hq, hcase⟩ := hcov
      rcases List.mem_cons.mp hq with rfl | hmem
      · show entry (setEntry (setEntry m a b (f (a, b))) b a (f (a, b))) i j = f (i, j)
        have ha' : a < d := ha
        have hb' : b < d := hb
        have hab' : a ≠ b := hab
        rcases hcase with ⟨h1, h2⟩ | ⟨h1, h2⟩
      -- q = (a, b) = (i, j): the inner setEntry wrote this cell
        · have e1 : a = i := h1
          have e2 : b = j := h2
          subst e1
          subst e2
          rw [entry_setEntry_of_ne _ (fun hh => hab' hh.1),
            entry_setEntry_self hm ha' hb']
      -- q = (a, b) = (j, i): the outer setEntry wrote this cell
        · have e1 : a = j := h1
          have e2 : b = i := h2
          subst e1
          subst e2
          rw [entry_setEntry_self (squareDim_setEntry hm _ _ _) hb' ha']
          exact hf _ _
      · exact absurd ⟨q, hmem, hcase⟩ hc

theorem mem_combinations2 {n : Nat} {p : Nat × Nat} :
    p ∈ combinations2 n ↔ p.1 < p.2 ∧ p.2 < n := by
  obtain ⟨a, b⟩ := p
  show (a, b) ∈ combinations2 n ↔ a < b ∧ b < n
  simp only [combinations2, List.mem_flatMap, List.mem_map, List.mem_filter, List.mem_range]
  constructor
  · rintro ⟨i, hi, j, ⟨hj, hij⟩, heq⟩
    have e1 : i = a := congrArg Prod.fst heq
    have e2 : j = b := congrArg Prod.snd heq
    have hij' : i < j := of_decide_eq_true hij
    omega
  · rintro ⟨hab, hb⟩
    exact ⟨a, by omega, b, ⟨hb, decide_eq_true hab⟩, rfl⟩

theorem covers_combinations2 {n i j : Nat} :
    Covers (combinations2 n) i j ↔ i ≠ j ∧ i < n ∧ j < n := by
  constructor
  · rintro ⟨⟨a, b⟩, hp, hc⟩
    rw [mem_combinations2] at hp
    have hp1 : a < b := hp.1
    have hp2 : b < n := hp.2
    rcases hc with ⟨h1, h2⟩ | ⟨h1, h2⟩
    · have e1 : a = i := h1
      have e2 : b = j := h2
      omega
    · have e1 : a = j := h1
      have e2 : b = i := h2
      omega
  · rintro ⟨hij, hi, hj⟩
    rcases Nat.lt_or_ge i j with h | h
    · exact ⟨(i, j), mem_combinations2.mpr ⟨h, hj⟩, Or.inl ⟨rfl, rfl⟩⟩
    · exact ⟨(j, i), mem_combinations2.mpr ⟨by omega, hi⟩, Or.inr ⟨rfl, rfl⟩⟩

theorem squareDim_zeros (n : Nat) : SquareDim (zeros (R := R) n) n := by
  refine ⟨by simp [zeros], ?_⟩
  intro row h
  rw [zeros] at h
  rw [List.eq_of_mem_replicate h]
  simp

theorem entry_zeros (n i j : Nat) : entry (zeros (R := R) n) i j = 0 := by
  have hrow : (zeros (R := R) n).getD i [] = List.replicate n 0 ∨
      (zeros (R := R) n).getD i [] = ([] : List R) := by
    rcases getD_mem_or_default (zeros (R := R) n) i with h | h
    · exact Or.inl (List.eq_of_mem_replicate h)
    · exact Or.inr h
  rw [entry]
  rcases hrow with h | h <;> rw [h]
  · rw [List.getD_eq_getElem?_getD, List.getElem?_replicate]
    by_cases hj : j < n
    · rw [if_pos hj]
      rfl
    · rw [if_neg hj]
      rfl
  · rfl

theorem entry_eq_zero_of_ge {m : List (List R)} {d : Nat} (hm : SquareDim m d) {i j : Nat}
    (h : d ≤ i ∨ d ≤ j) : entry m i j = 0 := by
  rcases h with h | h
  · have hnil : m.getD i [] = [] := by
      rw [List.getD_eq_getElem?_getD, List.getElem?_eq_none (by rw [hm.1]; omega)]
      rfl
    rw [entry, hnil]
    rfl
  · rw [entry]
    rcases getD_mem_or_default m i with hmem | hnil
    · have hlen : (m.getD i []).length = d := hm.2 _ hmem
      rw [List.getD_eq_getElem?_getD, List.getElem?_eq_none (by omega)]
      rfl
    · rw [hnil]
      rfl

theorem matrix_ext {m1 m2 : List (List R)} {d : Nat} (h1 : SquareDim m1 d) (h2 : SquareDim m2 d)
    (h : ∀ i j, i < d → j < d → entry m1 i j = entry m2 i j) : m1 = m2 := by
  have hlen : m1.length = m2.length := h1.1.trans h2.1.symm
  apply List.ext_getElem hlen
  intro i hi1 hi2
  have hr1 : m1[i].length = d := h1.2 _ (List.getElem_mem _)
  have hr2 : m2[i].length = d := h2.2 _ (List.getElem_mem _)
  apply List.ext_getElem (hr1.trans hr2.symm)
  intro j hj1 hj2
  have hid : i < d := h1.1 ▸ hi1
  have hjd : j < d := hr1 ▸ hj1
  have he := h i j hid hjd
  rwa [entry, entry, List.getD_eq_getElem _ _ hi1, List.getD_eq_getElem _ _ hi2,
    List.getD_eq_getElem _ _ hj1, List.getD_eq_getElem _ _ hj2] at he

theorem coeffBetween_symm (w : WSN R) (x1 y1 x2 y2 : R) :
    coeffBetween sqrt pow w x1 y1 x2 y2 = coeffBetween sqrt pow w x2 y2 x1 y1 := by
  have h : (x1 - x2) ^ 2 + (y1 - y2) ^ 2 = (x2 - x1) ^ 2 + (y2 - y1) ^ 2 := by ring
  rw [coeffBetween, coeffBetween, h]

theorem pcoeff_symm (w : WSN R) (i j : Nat) :
    pcoeff sqrt pow w i j = pcoeff sqrt pow w j i := by
  rw [pcoeff, pcoeff, coeffBetween_symm]

theorem pointXs_length (w : WSN R) : (pointXs w).length = w.nodes.length + 1 := by
  rw [pointXs, List.length_cons, List.length_map]

theorem squareDim_build {w : WSN R} {d : Nat} (hm : SquareDim w.power_mat d) :
    SquareDim (build_power_matrix sqrt pow w).power_mat d :=
  squareDim_foldl_writeSym
    (fun p => coeffBetween sqrt pow w ((pointXs w).getD p.1 0) ((pointYs w).getD p.1 0)
      ((pointXs w).getD p.2 0) ((pointYs w).getD p.2 0))
    (combinations2 (pointXs w).length) hm

theorem entry_build_of_ne {w : WSN R} (hm : SquareDim w.power_mat (w.nodes.length + 1))
    {i j : Nat} (hi : i < w.nodes.length + 1) (hj : j < w.nodes.length + 1) (hij : i ≠ j) :
    entry (build_power_matrix sqrt pow w).power_mat i j = pcoeff sqrt pow w i j := by
  apply entry_foldl_writeSym_of_covered
    (fun p => coeffBetween sqrt pow w ((pointXs w).getD p.1 0) ((pointYs w).getD p.1 0)
      ((pointXs w).getD p.2 0) ((pointYs w).getD p.2 0))
    (fun a b => coeffBetween_symm ..) (combinations2 (pointXs w).length) hm
  · intro p hp
    rw [mem_combinations2, pointXs_length] at hp
    exact ⟨by omega, hp.2, by omega⟩
  · rw [pointXs_length, covers_combinations2]
    exact ⟨hij, hi, hj⟩

theorem entry_build_not_written {w : WSN R}
    {i j : Nat} (h : i = j ∨ w.nodes.length + 1 ≤ i ∨ w.nodes.length + 1 ≤ j) :
    entry (build_power_matrix sqrt pow w).power_mat i j = entry w.power_mat i j := by
  apply entry_foldl_writeSym_of_not_covered
  rw [pointXs_length, covers_combinations2]
  intro hcov
  omega

theorem numCols_eq {m : List (List R)} {d : Nat} (hm : SquareDim m d) (hne : 0 < m.length) :
    numCols m = d := by
  cases m with
  | nil => exact absurd hne (by simp)
  | cons row t => exact hm.2 row (List.mem_cons_self _ _)

theorem resolveIdx_some_lt {idx : Int} {n i : Nat} (h : resolveIdx idx n = some i) : i < n := by
  simp only [resolveIdx] at h
  split at h <;> split at h <;>
    first
      | exact Option.noConfusion h
      | (have hinj := Option.some.inj h; omega)

theorem resolveIdx_nat {i n : Nat} (h : i < n) : resolveIdx i n = some i := by
  simp only [resolveIdx]
  rw [if_neg (by omega : ¬((i : Int) < 0)), if_pos (by omega : (0 : Int) ≤ i ∧ (i : Int) < n)]
  simp

theorem resolveIdx_neg {idx : Int} {n : Nat} (h1 : idx < 0) (h2 : 0 ≤ idx + n) :
    resolveIdx idx n = some (idx + n).toNat := by
  simp only [resolveIdx]
  rw [if_pos h1, if_pos ⟨h2, by omega⟩]

theorem resolveIdx_none {idx : Int} {n : Nat} (h : (n : Int) ≤ idx ∨ idx < -(n : Int)) :
    resolveIdx idx n = none := by
  simp only [resolveIdx]
  split <;> rw [if_neg (by omega)]

theorem getD_append_lt (l1 l2 : List R) (b : Nat) (hb : b < l1.length) :
    (l1 ++ l2).getD b 0 = l1.getD b 0 := by
  rw [List.getD_eq_getElem?_getD, List.getElem?_append, if_pos hb,
    ← List.getD_eq_getElem?_getD]

theorem getD_append_ge (l1 l2 : List R) (b : Nat) (hb : l1.length ≤ b) :
    (l1 ++ l2).getD b 0 = l2.getD (b - l1.length) 0 := by
  rw [List.getD_eq_getElem?_getD, List.getElem?_append, if_neg (by omega),
    ← List.getD_eq_getElem?_getD]

theorem getD_eraseIdx {α : Type} (l : List α) (j a : Nat) (dflt : α) :
    (l.eraseIdx j).getD a dflt =
      if a < j then l.getD a dflt else l.getD (a + 1) dflt := by
  rw [List.getD_eq_getElem?_getD, List.getElem?_eraseIdx]
  split <;> rw [← List.getD_eq_getElem?_getD]

theorem zipStack_length {m : List (List R)} {cl : List R} {d : Nat}
    (hm : SquareDim m d) (hlen : cl.length = d) :
    (List.zipWith (fun row c => row ++ [c]) m cl).length = d := by
  rw [List.length_zipWith, hm.1, hlen, Nat.min_self]

theorem stackMat_row_lt {m : List (List R)} {cl : List R} {d : Nat}
    (hm : SquareDim m d) (hlen : cl.length = d) {a : Nat} (ha : a < d) :
    (List.zipWith (fun row c => row ++ [c]) m cl ++ [cl ++ [0]]).getD a [] =
      m.getD a [] ++ [cl.getD a 0] := by
  have hzlen := zipStack_length hm hlen
  have ha' : a < (List.zipWith (fun row c => row ++ [c]) m cl).length := by omega
  have ham : a < m.length := by rw [hm.1]; exact ha
  have hacl : a < cl.length := by omega
  rw [List.getD_eq_getElem?_getD, List.getElem?_append, if_pos ha',
    List.getElem?_eq_getElem ha', List.getElem_zipWith, Option.getD_some,
    List.getD_eq_getElem _ _ ham, List.getD_eq_getElem _ _ hacl]

theorem stackMat_row_last {m : List (List R)} {cl : List R} {d : Nat}
    (hm : SquareDim m d) (hlen : cl.length = d) :
    (List.zipWith (fun row c => row ++ [c]) m cl ++ [cl ++ [0]]).getD d [] = cl ++ [0] := by
  have hzlen := zipStack_length hm hlen
  rw [List.getD_eq_getElem?_getD, List.getElem?_append, if_neg (by omega), hzlen,
    Nat.sub_self]
  rfl

theorem squareDim_stackMat {m : List (List R)} {cl : List R} {d : Nat}
    (hm : SquareDim m d) (hlen : cl.length = d) :
    SquareDim (List.zipWith (fun row c => row ++ [c]) m cl ++ [cl ++ [0]]) (d + 1) := by
  have hzlen := zipStack_length hm hlen
  constructor
  · rw [List.length_append, hzlen]
    rfl
  · intro row hrow
    rcases List.mem_append.mp hrow with h | h
    · rw [List.mem_iff_getElem] at h
      obtain ⟨i, hi, hrow⟩ := h
      have him : i < m.length := by
        rw [List.length_zipWith] at hi
        omega
      rw [List.getElem_zipWith] at hrow
      have hmem : m[i] ∈ m := List.getElem_mem him
      rw [← hrow, List.length_append, hm.2 _ hmem]
      rfl
    · rw [List.mem_singleton.mp h, List.length_append, hlen]
      rfl

theorem squareDim_eraseRC {m : List (List R)} {d : Nat} (hm : SquareDim m d) {j : Nat}
    (hj : j < d) :
    SquareDim ((m.eraseIdx j).map (fun row => row.eraseIdx j)) (d - 1) := by
  constructor
  · rw [List.length_map, List.length_eraseIdx, if_pos (by rw [hm.1]; exact hj), hm.1]
  · intro row hrow
    rw [List.mem_map] at hrow
    obtain ⟨row0, hrow0, rfl⟩ := hrow
    have hmem : row0 ∈ m := List.Sublist.mem hrow0 (List.eraseIdx_sublist ..)
    rw [List.length_eraseIdx, if_pos (by rw [hm.2 _ hmem]; exact hj), hm.2 _ hmem]

theorem getD_map_rows {l : List (List R)} {f : List R → List R} {a : Nat} (ha : a < l.length) :
    (l.map f).getD a [] = f (l.getD a []) := by
  rw [List.getD_eq_getElem?_getD, List.getElem?_map, List.getElem?_eq_getElem ha]
  rw [Option.map_some', Option.getD_some, List.getD_eq_getElem _ _ ha]

theorem entry_eraseRC {m : List (List R)} {d : Nat} (hm : SquareDim m d) {j : Nat} (hj : j < d)
    {a b : Nat} (ha : a < d - 1) (_hb : b < d - 1) :
    entry ((m.eraseIdx j).map (fun row => row.eraseIdx j)) a b =
      entry m (if a < j then a else a + 1) (if b < j then b else b + 1) := by
  have hlen : (m.eraseIdx j).length = d - 1 := by
    rw [List.length_eraseIdx, if_pos (by rw [hm.1]; exact hj), hm.1]
  have haa : a < (m.eraseIdx j).length := by omega
  rw [entry, getD_map_rows haa, getD_eraseIdx m j a []]
  have hrowlen : (if a < j then m.getD a [] else m.getD (a + 1) []).length = d := by
    split
    · exact getD_row_length hm (by rw [hm.1]; omega)
    · exact getD_row_length hm (by rw [hm.1]; omega)
  rw [show ((if a < j then m.getD a [] else m.getD (a + 1) []).eraseIdx j).getD b 0 =
      if b < j then (if a < j then m.getD a [] else m.getD (a + 1) []).getD b 0
      else (if a < j then m.getD a [] else m.getD (a + 1) []).getD (b + 1) 0
    from getD_eraseIdx _ j b 0]
  rw [entry]
  split <;> split <;> rfl

theorem entry_stackMat_left {m : List (List R)} {cl : List R} {d : Nat}
    (hm : SquareDim m d) (hlen : cl.length = d) {a b : Nat} (ha : a < d) (hb : b < d) :
    entry (List.zipWith (fun row c => row ++ [c]) m cl ++ [cl ++ [0]]) a b = entry m a b := by
  have hrl : (m.getD a []).length = d := getD_row_length hm (by rw [hm.1]; exact ha)
  rw [entry, stackMat_row_lt hm hlen ha, getD_append_lt _ _ _ (by rw [hrl]; exact hb)]
  rfl

theorem entry_stackMat_newcol {m : List (List R)} {cl : List R} {d : Nat}
    (hm : SquareDim m d) (hlen : cl.length = d) {a : Nat} (ha : a < d) :
    entry (List.zipWith (fun row c => row ++ [c]) m cl ++ [cl ++ [0]]) a d = cl.getD a 0 := by
  have hrl : (m.getD a []).length = d := getD_row_length hm (by rw [hm.1]; exact ha)
  rw [entry, stackMat_row_lt hm hlen ha, getD_append_ge _ _ _ (by rw [hrl]), hrl,
    Nat.sub_self]
  rfl

theorem entry_stackMat_newrow {m : List (List R)} {cl : List R} {d : Nat}
    (hm : SquareDim m d) (hlen : cl.length = d) {b : Nat} (hb : b < d) :
    entry (List.zipWith (fun row c => row ++ [c]) m cl ++ [cl ++ [0]]) d b = cl.getD b 0 := by
  rw [entry, stackMat_row_last hm hlen, getD_append_lt _ _ _ (by rw [hlen]; exact hb)]

theorem entry_stackMat_corner {m : List (List R)} {cl : List R} {d : Nat}
    (hm : SquareDim m d) (hlen : cl.length = d) :
    entry (List.zipWith (fun row c => row ++ [c]) m cl ++ [cl ++ [0]]) d d = 0 := by
  rw [entry, stackMat_row_last hm hlen, getD_append_ge _ _ _ (by rw [hlen]), hlen,
    Nat.sub_self]
  rfl

theorem goodMatrix_build {w : WSN R} (hm : SquareDim w.power_mat (w.nodes.length + 1))
    (hdiag : ∀ i, entry w.power_mat i i = 0) :
    GoodMatrix (build_power_matrix sqrt pow w).power_mat := by
  have hsq := squareDim_build sqrt pow hm
  refine ⟨hsq.1 ▸ hsq, ?_, ?_⟩
  · intro i j
    by_cases hi : i < w.nodes.length + 1
    · by_cases hj : j < w.nodes.length + 1
      · by_cases hij : i = j
        · rw [hij]
        · rw [entry_build_of_ne sqrt pow hm hi hj hij,
            entry_build_of_ne sqrt pow hm hj hi (fun h => hij h.symm), pcoeff_symm]
      · rw [entry_eq_zero_of_ge hsq (Or.inr (by omega)),
          entry_eq_zero_of_ge hsq (Or.inl (by omega))]
    · rw [entry_eq_zero_of_ge hsq (Or.inl (by omega)),
        entry_eq_zero_of_ge hsq (Or.inr (by omega))]
  · intro i
    by_cases hi : i < w.nodes.length + 1
    · rw [entry_build_not_written sqrt pow (Or.inl rfl)]
      exact hdiag i
    · exact entry_eq_zero_of_ge hsq (Or.inl (by omega))

theorem goodMatrix_init (nodes : List (Node R)) (rho alpha beta_1 beta_2 charge_rate : R)
    (wcv base : R × R) (max_charge min_charge : R) :
    GoodMatrix (WSN.init sqrt pow nodes rho alpha beta_1 beta_2 charge_rate wcv base
      max_charge min_charge).power_mat :=
  goodMatrix_build sqrt pow (squareDim_zeros (nodes.length + 1))
    (fun i => entry_zeros (nodes.length + 1) i i)

theorem goodMatrix_add (w : WSN R) (node : Node R) (h : GoodMatrix w.power_mat) :
    GoodMatrix (add_sensor sqrt pow w node).state.power_mat := by
  obtain ⟨hsq, hsym, hdiag⟩ := h
  simp only [add_sensor]
  split
  · rename_i hg
    have hlen : (w.nodes.map fun nd : Node R =>
        coeffBetween sqrt pow w nd.x nd.y node.x node.y).length = w.power_mat.length :=
      hg.symm
    have hsq' := squareDim_stackMat hsq hlen
    have hL : (List.zipWith (fun row c => row ++ [c]) w.power_mat
        (w.nodes.map fun nd : Node R => coeffBetween sqrt pow w nd.x nd.y node.x node.y) ++
        [(w.nodes.map fun nd : Node R => coeffBetween sqrt pow w nd.x nd.y node.x node.y) ++
          [0]]).length = w.power_mat.length + 1 := hsq'.1
    refine ⟨hL ▸ hsq', ?_, ?_⟩
    · intro i j
      by_cases hi : i < w.power_mat.length
      · by_cases hj : j < w.power_mat.length
        · rw [entry_stackMat_left hsq hlen hi hj, entry_stackMat_left hsq hlen hj hi]
          exact hsym i j
        · by_cases hj' : j = w.power_mat.length
          · rw [hj', entry_stackMat_newcol hsq hlen hi, entry_stackMat_newrow hsq hlen hi]
          · rw [entry_eq_zero_of_ge hsq' (Or.inr (by omega)),
              entry_eq_zero_of_ge hsq' (Or.inl (by omega))]
      · by_cases hi' : i = w.power_mat.length
        · by_cases hj : j < w.power_mat.length
          · rw [hi', entry_stackMat_newrow hsq hlen hj, entry_stackMat_newcol hsq hlen hj]
          · by_cases hj' : j = w.power_mat.length
            · rw [hi', hj']
            · rw [entry_eq_zero_of_ge hsq' (Or.inr (by omega)),
                entry_eq_zero_of_ge hsq' (Or.inl (by omega))]
        · rw [entry_eq_zero_of_ge hsq' (Or.inl (by omega)),
            entry_eq_zero_of_ge hsq' (Or.inr (by omega))]
    · intro i
      by_cases hi : i < w.power_mat.length
      · rw [entry_stackMat_left hsq hlen hi hi]
        exact hdiag i
      · by_cases hi' : i = w.power_mat.length
        · rw [hi']
          exact entry_stackMat_corner hsq hlen
        · exact entry_eq_zero_of_ge hsq' (Or.inl (by omega))
  · exact ⟨hsq, hsym, hdiag⟩

theorem goodMatrix_remove (w : WSN R) (idx : Int) (h : GoodMatrix w.power_mat) :
    GoodMatrix (remove_sensor w idx).state.power_mat := by
  obtain ⟨hsq, hsym, hdiag⟩ := h
  cases h1 : resolveIdx idx w.nodes.length with
  | none =>
    simp only [remove_sensor, h1]
    exact ⟨hsq, hsym, hdiag⟩
  | some i =>
    cases h2 : resolveIdx idx w.power_mat.length with
    | none =>
      simp only [remove_sensor, h1, h2]
      exact ⟨hsq, hsym, hdiag⟩
    | some j =>
      have hj : j < w.power_mat.length := resolveIdx_some_lt h2
      have hcols : numCols w.power_mat = w.power_mat.length := numCols_eq hsq (by omega)
      simp only [remove_sensor, h1, h2, hcols]
      have hsq' := squareDim_eraseRC hsq hj
      have hL : ((w.power_mat.eraseIdx j).map (fun row => row.eraseIdx j)).length =
          w.power_mat.length - 1 := hsq'.1
      refine ⟨hL ▸ hsq', ?_, ?_⟩
      · intro a b
        by_cases ha : a < w.power_mat.length - 1
        · by_cases hb : b < w.power_mat.length - 1
          · rw [entry_eraseRC hsq hj ha hb, entry_eraseRC hsq hj hb ha]
            exact hsym _ _
          · rw [entry_eq_zero_of_ge hsq' (Or.inr (by omega)),
              entry_eq_zero_of_ge hsq' (Or.inl (by omega))]
        · rw [entry_eq_zero_of_ge hsq' (Or.inl (by omega)),
            entry_eq_zero_of_ge hsq' (Or.inr (by omega))]
      · intro a
        by_cases ha : a < w.power_mat.length - 1
        · rw [entry_eraseRC hsq hj ha ha]
          exact hdiag _
        · exact entry_eq_zero_of_ge hsq' (Or.inl (by omega))

theorem reachable_goodMatrix {w : WSN R} (h : Reachable sqrt pow w) :
    GoodMatrix w.power_mat := by
  induction h with
  | init nodes rho alpha beta_1 beta_2 charge_rate wcv base mx mn =>
    exact goodMatrix_init sqrt pow nodes rho alpha beta_1 beta_2 charge_rate wcv base mx mn
  | add w node _ ih => exact goodMatrix_add sqrt pow w node ih
  | remove w idx _ ih => exact goodMatrix_remove w idx ih

/-- C1: the spec's value invariant `power_matrix[i][j] = beta_1 + beta_2 *
dist(point_i, point_j) ** alpha` (i ≠ j) does NOT hold in every reachable
state: removing sensor 0 from the two-node network `wB` deletes matrix
row/column 0 (the base station's row), after which `power_matrix[0][1]`
is the old node0-node1 coefficient 5, while the invariant demands the
base-to-node coefficient 10 for the current node list. -/
theorem claim1_value_invariant_violated :
    Reachable sqrtW powW (remove_sensor wB 0).state ∧
    entry (remove_sensor wB 0).state.power_mat 0 1 = 5 ∧
    pcoeff sqrtW powW (remove_sensor wB 0).state 0 1 = 10 ∧
    entry (remove_sensor wB 0).state.power_mat 0 1 ≠
      pcoeff sqrtW powW (remove_sensor wB 0).state 0 1 :=
  ⟨Reachable.remove wB 0
      (Reachable.init [⟨3, 4, 1⟩, ⟨6, 8, 1⟩] 1 1 0 1 1 (0, 0) (0, 0) 10 1),
    by decide, by decide, by decide⟩

/-- C2: immediately after construction, `power_mat` is square of dimension
`len(nodes) + 1`, symmetric, has zero diagonal, and every off-diagonal
entry equals `beta_1 + beta_2 * dist(point_i, point_j) ** alpha`. -/
theorem claim2_init_matrix_correct (nodes : List (Node R))
    (rho alpha beta_1 beta_2 charge_rate : R) (wcv base : R × R)
    (max_charge min_charge : R) (w : WSN R)
    (hw : w = WSN.init sqrt pow nodes rho alpha beta_1 beta_2 charge_rate wcv base
      max_charge min_charge) :
    SquareDim w.power_mat (nodes.length + 1) ∧
    (∀ i j, entry w.power_mat i j = entry w.power_mat j i) ∧
    (∀ i, entry w.power_mat i i = 0) ∧
    ∀ i j, i < nodes.length + 1 → j < nodes.length + 1 → i ≠ j →
      entry w.power_mat i j = pcoeff sqrt pow w i j := by
  subst hw
  have hg := goodMatrix_init sqrt pow nodes rho alpha beta_1 beta_2 charge_rate wcv base
    max_charge min_charge
  have hm0 : SquareDim (zeros (R := R) (nodes.length + 1)) (nodes.length + 1) :=
    squareDim_zeros _
  exact ⟨squareDim_build sqrt pow hm0, hg.2.1, hg.2.2,
    fun i j hi hj hij => entry_build_of_ne sqrt pow hm0 hi hj hij⟩

/-- Witness for C2 at the concrete one-node network `wA`. -/
theorem claim2_witness :
    entry wA.power_mat 0 1 = pcoeff sqrtW powW wA 0 1 ∧ entry wA.power_mat 0 0 = 0 ∧
    SquareDim wA.power_mat 2 := by
  have h := claim2_init_matrix_correct sqrtW powW [⟨3, 4, 1⟩] 1 1 0 1 1 (0, 0) (0, 0) 10 1
    wA rfl
  exact ⟨h.2.2.2 0 1 (by decide) (by decide) (by decide), h.2.2.1 0, h.1⟩

/-- C3: contrary to the claim, `add_sensor` on a consistent network never
extends the matrix to dimension `k + 2`: on the two-node network `wB`
(matrix 3×3) it raises (the stacked column has length 2 ≠ 3 rows), leaves
the matrix at 3×3, and still appends the node. -/
theorem claim3_add_sensor_no_extension :
    (add_sensor sqrtW powW wB ⟨0, 0, 1⟩).raised = true ∧
    (add_sensor sqrtW powW wB ⟨0, 0, 1⟩).state.power_mat = wB.power_mat ∧
    (add_sensor sqrtW powW wB ⟨0, 0, 1⟩).state.power_mat.length = 3 ∧
    (add_sensor sqrtW powW wB ⟨0, 0, 1⟩).state.nodes.length = 3 :=
  ⟨by decide, by decide, by decide, by decide⟩

/-- C4: for a valid 0-based node index on a consistent network,
`remove_sensor` deletes `nodes[idx]` and deletes matrix row `idx` and
column `idx` (matrix-space index equal to the sequence index, not
`idx + 1`), shrinking the dimension by one. -/
theorem claim4_remove_sensor_valid_index (w : WSN R) (idx : Nat)
    (h1 : idx < w.nodes.length) (h2 : SquareDim w.power_mat (w.nodes.length + 1)) :
    remove_sensor w idx =
      { state :=
          { w with
            nodes := w.nodes.eraseIdx idx,
            power_mat := (w.power_mat.eraseIdx idx).map (fun row => row.eraseIdx idx) },
        raised := false } ∧
    (remove_sensor w idx).state.power_mat.length = w.power_mat.length - 1 := by
  have hpos : 0 < w.power_mat.length := by rw [h2.1]; omega
  have hr1 : resolveIdx idx w.nodes.length = some idx := resolveIdx_nat h1
  have hr2 : resolveIdx idx w.power_mat.length = some idx :=
    resolveIdx_nat (by rw [h2.1]; omega)
  have hcols : numCols w.power_mat = w.power_mat.length := by
    rw [numCols_eq h2 hpos, h2.1]
  refine ⟨?_, ?_⟩ <;> simp only [remove_sensor, hcols, hr1, hr2]
  rw [List.length_map, List.length_eraseIdx, if_pos (by rw [h2.1]; omega)]

/-- Witness for C4 at the concrete two-node network `wB`, index 0. -/
theorem claim4_witness :
    remove_sensor wB 0 =
      { state :=
          { wB with
            nodes := wB.nodes.eraseIdx 0,
            power_mat := (wB.power_mat.eraseIdx 0).map (fun row => row.eraseIdx 0) },
        raised := false } ∧
    (remove_sensor wB 0).state.power_mat.length = wB.power_mat.length - 1 :=
  claim4_remove_sensor_valid_index wB 0 (by decide) ⟨by decide, by decide⟩

/-- Counterexample to C5 as stated: `remove_sensor` with the negative
index `-1` on the one-node network `wA` does NOT fail — Python list
deletion and `np.delete` both accept negative indices — and it mutates
the network. -/
theorem claim5_counterexample :
    (remove_sensor wA (-1)).raised = false ∧ (remove_sensor wA (-1)).state.nodes = [] :=
  ⟨by decide, by decide⟩

/-- C5 (amended): `remove_sensor` fails with IndexError and leaves the
network unmodified exactly when `idx ≥ len(nodes)` or `idx < -len(nodes)`
(not `idx < 0`: negative indices down to `-len(nodes)` succeed). -/
theorem claim5_amended_remove_out_of_range (w : WSN R) (idx : Int)
    (h : (w.nodes.length : Int) ≤ idx ∨ idx < -(w.nodes.length : Int)) :
    remove_sensor w idx = { state := w, raised := true } := by
  simp only [remove_sensor, resolveIdx_none h]

/-- Witness for the amended C5 at `wA` with index 5. -/
theorem claim5_witness : remove_sensor wA 5 = { state := wA, raised := true } :=
  claim5_amended_remove_out_of_range wA 5 (Or.inl (by decide))

/-- C6: every state reachable by the constructor and any sequence of
`add_sensor` / `remove_sensor` calls has a symmetric power matrix with
zero diagonal. -/
theorem claim6_reachable_symm_zero_diag {w : WSN R} (h : Reachable sqrt pow w) :
    (∀ i j, entry w.power_mat i j = entry w.power_mat j i) ∧
    ∀ i, entry w.power_mat i i = 0 :=
  ⟨(reachable_goodMatrix sqrt pow h).2.1, (reachable_goodMatrix sqrt pow h).2.2⟩

/-- Witness for C6 at the reachable state obtained by removing sensor 0
from `wB`. -/
theorem claim6_witness :
    entry (remove_sensor wB 0).state.power_mat 0 1 =
      entry (remove_sensor wB 0).state.power_mat 1 0 ∧
    entry (remove_sensor wB 0).state.power_mat 0 0 = 0 := by
  have h := claim6_reachable_symm_zero_diag sqrtW powW
    (Reachable.remove wB 0
      (Reachable.init [⟨3, 4, 1⟩, ⟨6, 8, 1⟩] 1 1 0 1 1 (0, 0) (0, 0) 10 1))
  exact ⟨h.1 0 1, h.2 0⟩

/-- C7: rebuilding the power matrix twice on an unchanged node list gives
the same matrix as a single build. -/
theorem claim7_build_idempotent (w : WSN R)
    (h : SquareDim w.power_mat (w.nodes.length + 1)) :
    (build_power_matrix sqrt pow (build_power_matrix sqrt pow w)).power_mat =
      (build_power_matrix sqrt pow w).power_mat := by
  have h1 : SquareDim (build_power_matrix sqrt pow w).power_mat (w.nodes.length + 1) :=
    squareDim_build sqrt pow h
  have h1' : SquareDim (build_power_matrix sqrt pow w).power_mat
      ((build_power_matrix sqrt pow w).nodes.length + 1) := h1
  have h2 : SquareDim
      (build_power_matrix sqrt pow (build_power_matrix sqrt pow w)).power_mat
      (w.nodes.length + 1) := squareDim_build sqrt pow h1'
  apply matrix_ext h2 h1
  intro i j hi hj
  by_cases hij : i = j
  · subst hij
    rw [entry_build_not_written sqrt pow (Or.inl rfl)]
  · rw [entry_build_of_ne sqrt pow h1' hi hj hij, entry_build_of_ne sqrt pow h hi hj hij]
    rfl

/-- Witness for C7 at the concrete one-node network `wA`. -/
theorem claim7_witness :
    (build_power_matrix sqrtW powW (build_power_matrix sqrtW powW wA)).power_mat =
      (build_power_matrix sqrtW powW wA).power_mat :=
  claim7_build_idempotent sqrtW powW wA ⟨by decide, by decide⟩

/-- C8: contrary to the claim, adding a sensor and then removing the
just-added one does NOT restore the network: on `wA` the add raises
without extending the 2×2 matrix, and the removal (of node index 1, the
just-added sensor) then deletes a surviving row/column, leaving a 1×1
matrix instead of the original 2×2. -/
theorem claim8_round_trip_fails :
    (remove_sensor (add_sensor sqrtW powW wA ⟨6, 8, 1⟩).state 1).state.nodes = wA.nodes ∧
    (remove_sensor (add_sensor sqrtW powW wA ⟨6, 8, 1⟩).state 1).raised = false ∧
    wA.power_mat.length = 2 ∧
    (remove_sensor (add_sensor sqrtW powW wA ⟨6, 8, 1⟩).state 1).state.power_mat.length
      = 1 ∧
    (remove_sensor (add_sensor sqrtW powW wA ⟨6, 8, 1⟩).state 1).state.power_mat ≠
      wA.power_mat :=
  ⟨by decide, by decide, by decide, by decide, by decide⟩

/-- C9: from any consistent state (matrix dimension `len(nodes) + 1`),
`add_sensor` raises (the stacked column has `len(nodes)` entries against
`len(nodes) + 1` matrix rows), with the node already appended and the
matrix unchanged — the two structures are left desynchronized. -/
theorem claim9_add_sensor_raises_nonatomic (w : WSN R) (node : Node R)
    (h : w.power_mat.length = w.nodes.length + 1) :
    add_sensor sqrt pow w node =
      { state := { w with nodes := w.nodes ++ [node] }, raised := true } := by
  simp only [add_sensor]
  rw [if_neg (by rw [List.length_map]; omega)]

/-- Witness for C9 at the concrete one-node network `wA`. -/
theorem claim9_witness :
    add_sensor sqrtW powW wA ⟨6, 8, 1⟩ =
      { state := { wA with nodes := wA.nodes ++ [⟨6, 8, 1⟩] }, raised := true } :=
  claim9_add_sensor_raises_nonatomic sqrtW powW wA ⟨6, 8, 1⟩ (by decide)

/-- C10: for `-len(nodes) ≤ idx ≤ -1` on a consistent network,
`remove_sensor idx` succeeds, removing `nodes[len(nodes) + idx]` and the
matrix row/column at position `len(nodes) + 1 + idx` — exactly the
removed node's matrix slot, so the node-to-matrix correspondence of the
remaining entries is preserved. -/
theorem claim10_remove_sensor_negative_index (w : WSN R) (idx : Int)
    (hneg : idx < 0) (hge : -(w.nodes.length : Int) ≤ idx)
    (h2 : SquareDim w.power_mat (w.nodes.length + 1)) :
    remove_sensor w idx =
      { state :=
          { w with
            nodes := w.nodes.eraseIdx (idx + w.nodes.length).toNat,
            power_mat := (w.power_mat.eraseIdx ((idx + w.nodes.length).toNat + 1)).map
              (fun row => row.eraseIdx ((idx + w.nodes.length).toNat + 1)) },
        raised := false } := by
  have hpos : 0 < w.power_mat.length := by rw [h2.1]; omega
  have hr1 : resolveIdx idx w.nodes.length = some (idx + w.nodes.length).toNat :=
    resolveIdx_neg hneg (by omega)
  have hr2 : resolveIdx idx w.power_mat.length = some (idx + w.power_mat.length).toNat :=
    resolveIdx_neg hneg (by rw [h2.1]; omega)
  have he : (idx + (w.power_mat.length : Int)).toNat =
      (idx + (w.nodes.length : Int)).toNat + 1 := by
    rw [h2.1]
    omega
  have hcols : numCols w.power_mat = w.power_mat.length := by
    rw [numCols_eq h2 hpos, h2.1]
  simp only [remove_sensor, hcols, hr1, hr2, he]

/-- Witness for C10 at the concrete one-node network `wA`, index `-1`. -/
theorem claim10_witness :
    remove_sensor wA (-1) =
      { state :=
          { wA with
            nodes := wA.nodes.eraseIdx ((-1 + (wA.nodes.length : Int)).toNat),
            power_mat := (wA.power_mat.eraseIdx ((-1 + (wA.nodes.length : Int)).toNat + 1)).map
              (fun row => row.eraseIdx ((-1 + (wA.nodes.length : Int)).toNat + 1)) },
        raised := false } :=
  claim10_remove_sensor_negative_index wA (-1) (by decide) (by decide)
    ⟨by decide, by decide⟩

end Lemmas

end WSNV
